import Mathlib

/-!
Verification of the disk-image client module (`disk_image.go`).

The definitions below shallowly embed the pure core of the module: the
catalog filter of `ListDiskImages`, the resolver loop of `FindDiskImage`,
the linear scan of `GetDiskImageByName`, the semantic-version maximum scan
of `GetMostRecentDistro` (including a faithful model of
`golang.org/x/mod/semver.Compare`), and the JSON decoding of `DiskImage`
payloads.  Network transport is outside the embedding: each operation that
first fetches the catalog is modelled as a function of the list it scans
(the list returned by `ListDiskImages`), and the decoding operations are
modelled as functions of the parsed JSON value of the response body.
-/

namespace Civogo

/-! ### Go `strings.Contains` -/

/-- `subAt needle hay` holds when `needle` occurs at the front of `hay`. -/
def subAt : List Char → List Char → Bool
  | [], _ => true
  | _ :: _, [] => false
  | c :: cs, d :: ds => c == d && subAt cs ds

/-- `hasSub needle hay` scans every position of `hay` for an occurrence of
`needle`; it models Go `strings.Contains` on the underlying characters. -/
def hasSub (needle : List Char) : List Char → Bool
  | [] => subAt needle []
  | c :: t => subAt needle (c :: t) || hasSub needle t

/-- Go `strings.Contains s sub`: `sub` occurs as a contiguous substring of `s`. -/
def goContains (s sub : String) : Bool :=
  hasSub sub.data s.data

/-! ### The `DiskImage` entity (struct `DiskImage` of the source)

`CreatedAt` is a Go `time.Time`; it is modelled by its serialized string
form, since no operation of the module inspects it. -/

structure DiskImage where
  ID : String
  Name : String
  Version : String
  State : String
  InitialUser : String
  Distribution : String
  OS : String
  Description : String
  Label : String
  DiskImageURL : String
  DiskImageSizeBytes : Int
  LogoURL : String
  CreatedAt : String
  CreatedBy : String
  DistributionDefault : Bool
  deriving DecidableEq, Repr

/-- The zero value `DiskImage{}` of the Go struct. -/
def zeroDiskImage : DiskImage :=
  ⟨"", "", "", "", "", "", "", "", "", "", 0, "", "", "", false⟩

/-- Shorthand for catalog entries in concrete examples: only the fields the
algorithms inspect are populated. -/
def mkImg (id name version : String) : DiskImage :=
  ⟨id, name, version, "", "", "", "", "", "", "", 0, "", "", "", false⟩

/-! ### JSON values and decoding

Modelled from the behaviour of Go `encoding/json` on the `DiskImage` field
set, which is the decoder the module applies to response bodies. -/

/-- A parsed JSON document. -/
inductive JValue where
  | null
  | bool (b : Bool)
  | num (n : Int)
  | str (s : String)
  | arr (elems : List JValue)
  | obj (fields : List (String × JValue))

/-- Look up a key in a JSON object; `encoding/json` assigns object keys in
order of appearance, so of duplicate keys the last one wins. -/
def jLookup (fs : List (String × JValue)) (key : String) : Option JValue :=
  (fs.reverse.find? (fun kv => kv.1 == key)).map (fun kv => kv.2)

/-- The JSON keys of the string-typed `DiskImage` fields (`created_at`
holds the serialized `time.Time`). -/
def strFieldKeys : List String :=
  ["id", "name", "version", "state", "initial_user", "distribution", "os",
    "description", "label", "disk_image_url", "logo_url", "created_at", "created_by"]

/-- A value decodable into a Go string field: a JSON string, or `null`
(which leaves the field at its zero value). -/
def isStrOrNull : JValue → Bool
  | JValue.str _ => true
  | JValue.null => true
  | _ => false

/-- A value decodable into the `int64` field. -/
def isNumOrNull : JValue → Bool
  | JValue.num _ => true
  | JValue.null => true
  | _ => false

/-- A value decodable into the `bool` field. -/
def isBoolOrNull : JValue → Bool
  | JValue.bool _ => true
  | JValue.null => true
  | _ => false

/-- Whether one object entry is decodable into the `DiskImage` struct:
known keys must carry a value of the field's type, unknown keys are
ignored. -/
def fieldTypeOk (key : String) (v : JValue) : Bool :=
  if strFieldKeys.contains key then isStrOrNull v
  else if key == "disk_image_size_bytes" then isNumOrNull v
  else if key == "distribution_default" then isBoolOrNull v
  else true

/-- The decoded value of a string field: the last JSON string bound to the
key, or the zero value `""` when the key is absent or `null`. -/
def strD (fs : List (String × JValue)) (key : String) : String :=
  match jLookup fs key with
  | some (JValue.str s) => s
  | _ => ""

/-- The decoded value of the `int64` field. -/
def numD (fs : List (String × JValue)) (key : String) : Int :=
  match jLookup fs key with
  | some (JValue.num n) => n
  | _ => 0

/-- The decoded value of the `bool` field. -/
def boolD (fs : List (String × JValue)) (key : String) : Bool :=
  match jLookup fs key with
  | some (JValue.bool b) => b
  | _ => false

/-- Modelled from Go `encoding/json` unmarshalling into `DiskImage`:
decoding succeeds on a JSON object exactly when every known field present
has a value of the field's type (or `null`); present fields are assigned
(last duplicate wins), absent and `null` fields keep the zero value, and
unknown keys are ignored.  Go's case-insensitive key fallback and the
RFC 3339 validation of `created_at` are not modelled; no claim depends on
them. -/
def decodeDiskImage (j : JValue) : Option DiskImage :=
  match j with
  | JValue.obj fs =>
    if fs.all (fun kv => fieldTypeOk kv.1 kv.2) then
      some
        { ID := strD fs "id", Name := strD fs "name", Version := strD fs "version",
          State := strD fs "state", InitialUser := strD fs "initial_user",
          Distribution := strD fs "distribution", OS := strD fs "os",
          Description := strD fs "description", Label := strD fs "label",
          DiskImageURL := strD fs "disk_image_url",
          DiskImageSizeBytes := numD fs "disk_image_size_bytes",
          LogoURL := strD fs "logo_url", CreatedAt := strD fs "created_at",
          CreatedBy := strD fs "created_by",
          DistributionDefault := boolD fs "distribution_default" }
    else none
  | _ => none

/-- Decoding of the elements of a JSON array of disk images. -/
def decodeDiskImages : List JValue → Option (List DiskImage)
  | [] => some []
  | j :: t =>
    match decodeDiskImage j, decodeDiskImages t with
    | some d, some ds => some (d :: ds)
    | _, _ => none

/-- Decoding of the `[]DiskImage` response body of `ListDiskImages`. -/
def decodeDiskImageList : JValue → Option (List DiskImage)
  | JValue.arr xs => decodeDiskImages xs
  | _ => none

/-- `GetDiskImage` (lines 100-113) after transport: decode a single
`DiskImage` from the response body. -/
def getDiskImage (resp : JValue) : Option DiskImage :=
  decodeDiskImage resp

/-- `ListDiskImages` (lines 67-98) after transport: decode the array, then
drop every entry whose Name contains `k3s` or `talos`.  The
`includeCustom` flag only selects the request URL (`?type=custom`); it
plays no part in decoding or filtering. -/
def listDiskImages (includeCustom : Bool) (resp : JValue) : Option (List DiskImage) :=
  match decodeDiskImageList resp with
  | none => none
  | some diskImages =>
    some (diskImages.foldl
      (fun filtered d =>
        if !(goContains d.Name "k3s") && !(goContains d.Name "talos") then filtered ++ [d]
        else filtered)
      [])

/-! ### The resolver `FindDiskImage` (lines 116-147)

`FindDiskImage` first fetches the catalog with `ListDiskImages`; the
embedding takes that fetched list (`templateList`) as its input. -/

/-- Exact-match test of the resolver loop: `value.Name == search || value.ID == search`. -/
def exactB (search : String) (d : DiskImage) : Bool :=
  d.Name == search || d.ID == search

/-- Partial-match test of the resolver loop:
`strings.Contains(value.Name, search) || strings.Contains(value.ID, search)`. -/
def partialB (search : String) (d : DiskImage) : Bool :=
  goContains d.Name search || goContains d.ID search

/-- The scan of `FindDiskImage` over `templateList`, carrying the mutable
state `(exactMatch, partialMatchesCount, result)` of the Go loop. -/
def findLoop (search : String) : List DiskImage → Bool → Nat → DiskImage → Bool × Nat × DiskImage
  | [], ex, cnt, res => (ex, cnt, res)
  | v :: rest, ex, cnt, res =>
    if exactB search v then
      findLoop search rest true cnt v
    else if partialB search v then
      if ex then findLoop search rest ex cnt res
      else findLoop search rest ex (cnt + 1) v
    else
      findLoop search rest ex cnt res

/-- Errors produced by `FindDiskImage`: the wrapped `MultipleMatchesError`
and `ZeroMatchesError` sentinels, carrying the formatted message. -/
inductive FindError where
  | zeroMatches (msg : String)
  | multipleMatches (msg : String)
  deriving DecidableEq, Repr

/-- `FindDiskImage` after the catalog fetch: the scan followed by the
decision on `(exactMatch, partialMatchesCount, result)`. -/
def findDiskImage (templateList : List DiskImage) (search : String) : Except FindError DiskImage :=
  let st := findLoop search templateList false 0 zeroDiskImage
  if st.1 = true ∨ st.2.1 = 1 then
    Except.ok st.2.2
  else if st.2.1 > 1 then
    Except.error (FindError.multipleMatches
      ("unable to find " ++ search ++ " because there were multiple matches"))
  else
    Except.error (FindError.zeroMatches ("unable to find " ++ search ++ ", zero matches"))

/-! ### `GetDiskImageByName` (lines 150-163)

The Go function scans the list returned by `ListDiskImages` and returns the
first entry whose `Name` equals the argument, else the error
`diskimage not found`; the embedding takes that fetched list as input. -/

def getDiskImageByName : List DiskImage → String → Except String DiskImage
  | [], _ => Except.error "diskimage not found"
  | d :: rest, name => if d.Name == name then Except.ok d else getDiskImageByName rest name

/-! ### `golang.org/x/mod/semver` (the comparison `GetMostRecentDistro` uses) -/

/-- Characters legal in semver prerelease and build identifiers
(Go `isIdentChar`). -/
def isIdentChar (c : Char) : Bool :=
  ('A' ≤ c && c ≤ 'Z') || ('a' ≤ c && c ≤ 'z') || ('0' ≤ c && c ≤ '9') || c == '-'

/-- Go `isNum`: the identifier consists of digits only. -/
def isNumStr (s : List Char) : Bool :=
  s.all Char.isDigit

/-- Go `isBadNum`: a numeric identifier longer than one digit that starts
with a zero. -/
def isBadNum (s : List Char) : Bool :=
  match s with
  | '0' :: _ :: _ => isNumStr s
  | _ => false

/-- Numeric value of a digit run.  Go keeps major/minor/patch and numeric
identifiers as digit strings and compares them by length and then
lexicographically (`compareInt`); on the leading-zero-free digit strings
the parser admits, that is exactly numeric comparison, so the embedding
represents such a string by its value. -/
def digitsVal (s : List Char) : Nat :=
  s.foldl (fun n c => n * 10 + (c.toNat - 48)) 0

/-- Go `parseInt`: a leading run of digits without a superfluous leading
zero; yields its value and the rest of the input. -/
def parseIntCh (v : List Char) : Option (Nat × List Char) :=
  match v with
  | [] => none
  | c :: _ =>
    if c.isDigit then
      let ds := v.takeWhile Char.isDigit
      let rest := v.dropWhile Char.isDigit
      if c == '0' && ds.length != 1 then none
      else some (digitsVal ds, rest)
    else none

/-- A prerelease identifier.  Numeric identifiers order below alphanumeric
ones and numerically among themselves; alphanumeric identifiers order by
character comparison (they are ASCII, so this is Go's byte order). -/
abbrev SemIdent := Nat ⊕ₗ String

/-- Classify one parsed identifier. -/
def toIdent (s : List Char) : SemIdent :=
  if isNumStr s then toLex (Sum.inl (digitsVal s)) else toLex (Sum.inr (String.mk s))

/-- Go `parsePrerelease`: a `-` followed by dot-separated, non-empty
identifiers of ident-characters, none a bad numeric, extending to a `+` or
to the end of the input. -/
def parsePre (v : List Char) : Option (List SemIdent × List Char) :=
  match v with
  | '-' :: w =>
    let body := w.takeWhile (fun c => c != '+')
    let rest := w.dropWhile (fun c => c != '+')
    let segs := List.splitOn '.' body
    if segs.all (fun s => !s.isEmpty && s.all isIdentChar && !isBadNum s) then
      some (segs.map toIdent, rest)
    else none
  | _ => none

/-- Go `parseBuild`: a `+` followed by dot-separated, non-empty
identifiers of ident-characters (leading zeros allowed), extending to the
end of the input.  The build part never takes part in comparison, only in
validity. -/
def parseBuildChk (v : List Char) : Option Unit :=
  match v with
  | '+' :: w =>
    let segs := List.splitOn '.' w
    if segs.all (fun s => !s.isEmpty && s.all isIdentChar) then some () else none
  | _ => none

/-- The result of Go `semver.parse`: numeric major/minor/patch and the
prerelease identifiers (`none` when the version has no prerelease part). -/
structure SemParsed where
  major : Nat
  minor : Nat
  patch : Nat
  pre : Option (List SemIdent)
  deriving DecidableEq

/-- Go `semver.parse` of one version string: requires the leading `v`, a
numeric major (and optional `.minor` and `.patch`, defaulting to zero), an
optional valid prerelease part, an optional valid build part, and nothing
left over. -/
def parseV (s : String) : Option SemParsed :=
  match s.data with
  | 'v' :: v0 =>
    match parseIntCh v0 with
    | none => none
    | some (ma, v1) =>
      match v1 with
      | [] => some ⟨ma, 0, 0, none⟩
      | '.' :: v2 =>
        match parseIntCh v2 with
        | none => none
        | some (mi, v3) =>
          match v3 with
          | [] => some ⟨ma, mi, 0, none⟩
          | '.' :: v4 =>
            match parseIntCh v4 with
            | none => none
            | some (pa, v5) =>
              match v5 with
              | [] => some ⟨ma, mi, pa, none⟩
              | '-' :: _ =>
                match parsePre v5 with
                | none => none
                | some (pre, v6) =>
                  match v6 with
                  | [] => some ⟨ma, mi, pa, some pre⟩
                  | '+' :: _ =>
                    match parseBuildChk v6 with
                    | none => none
                    | some _ => some ⟨ma, mi, pa, some pre⟩
                  | _ => none
              | '+' :: _ =>
                match parseBuildChk v5 with
                | none => none
                | some _ => some ⟨ma, mi, pa, none⟩
              | _ => none
          | _ => none
      | _ => none
  | _ => none

/-- Comparison key of a parsed version: lexicographic on major, minor and
patch, then on the prerelease, where the absence of a prerelease ranks
above every prerelease identifier list and identifier lists compare
lexicographically (a proper prefix ranks lower). -/
abbrev SemVerKey := Nat ×ₗ Nat ×ₗ Nat ×ₗ WithTop (List SemIdent)

/-- Build the key of a parsed version. -/
def SemParsed.key (p : SemParsed) : SemVerKey :=
  toLex (p.major, toLex (p.minor, toLex (p.patch,
    (match p.pre with
      | none => (⊤ : WithTop (List SemIdent))
      | some l => (l : WithTop (List SemIdent))))))

/-- The comparison key of a version string: invalid strings rank below
every valid version and equal to each other, as in Go `semver.Compare`
(the `WithBot` bottom stands for an invalid version). -/
def semKey (s : String) : WithBot SemVerKey :=
  match parseV s with
  | none => (⊥ : WithBot SemVerKey)
  | some p => (p.key : WithBot SemVerKey)

/-- Go `semver.Compare`: `-1`, `0` or `+1` as the first version is
smaller, equal or larger under semantic-version precedence. -/
def semverCompare (v w : String) : Int :=
  if semKey v < semKey w then -1
  else if semKey w < semKey v then 1
  else 0

/-! ### `GetMostRecentDistro` (lines 166-190) -/

/-- One iteration of the `GetMostRecentDistro` loop: an entry whose Name
contains `name` becomes the candidate when there is no candidate yet or
when it is strictly greater than the current candidate; ties keep the
current (earlier) candidate. -/
def grdStep (name : String) (acc : Option DiskImage) (d : DiskImage) : Option DiskImage :=
  if goContains d.Name name then
    match acc with
    | none => some d
    | some cur => if semverCompare cur.Version d.Version < 0 then some d else some cur
  else acc

/-- `GetMostRecentDistro` after the catalog fetch: scan the list returned
by `ListDiskImages` for the highest-version entry whose Name contains
`name`; fail with `name image not found` when no entry matches. -/
def getMostRecentDistro (resp : List DiskImage) (name : String) : Except String DiskImage :=
  match resp.foldl (grdStep name) none with
  | some d => Except.ok d
  | none => Except.error (name ++ " image not found")

/-! ## Lemmas and claim theorems -/

/-- The empty string is a substring of every string. -/
lemma goContains_empty (s : String) : goContains s "" = true := by
  unfold goContains
  cases s.data <;> simp [hasSub, subAt]

/-- Once the exact-match flag is set, entries that are not exact matches
leave the whole loop state unchanged. -/
lemma findLoop_true_stable (search : String) :
    ∀ (l : List DiskImage) (cnt : Nat) (res : DiskImage),
      (∀ x ∈ l, exactB search x = false) →
      findLoop search l true cnt res = (true, cnt, res) := by
  intro l
  induction l with
  | nil => intro cnt res _; rfl
  | cons v t ih =>
    intro cnt res h
    have hv : exactB search v = false := h v (by simp)
    have ht : ∀ x ∈ t, exactB search x = false := fun x hx => h x (by simp [hx])
    by_cases hp : partialB search v = true
    · simp [findLoop, hv, hp, ih cnt res ht]
    · simp [findLoop, hv, hp, ih cnt res ht]

/-- If the remainder of the scan still contains an exact match, the loop
ends with the exact-match flag set and the last exact match as result,
whatever state it starts from. -/
lemma findLoop_exact (search : String) :
    ∀ (l : List DiskImage) (ex : Bool) (cnt : Nat) (res r : DiskImage),
      (l.filter (exactB search)).getLast? = some r →
      ∃ c, findLoop search l ex cnt res = (true, c, r) := by
  intro l
  induction l with
  | nil => intro ex cnt res r h; simp at h
  | cons v t ih =>
    intro ex cnt res r h
    by_cases hv : exactB search v = true
    · rw [List.filter_cons_of_pos hv] at h
      cases ht : t.filter (exactB search) with
      | nil =>
        rw [ht] at h
        simp at h
        subst h
        have hnone : ∀ x ∈ t, exactB search x = false := by
          intro x hx
          by_contra hc
          have : x ∈ t.filter (exactB search) := by
            refine List.mem_filter.mpr ⟨hx, ?_⟩
            simpa using hc
          rw [ht] at this
          simp at this
        refine ⟨cnt, ?_⟩
        simp [findLoop, hv, findLoop_true_stable search t cnt v hnone]
      | cons w ws =>
        have hlast : (t.filter (exactB search)).getLast? = some r := by
          rw [ht] at h ⊢
          simpa using h
        obtain ⟨c, hc⟩ := ih true cnt v r hlast
        exact ⟨c, by simp [findLoop, hv, hc]⟩
    · have hv' : exactB search v = false := by simpa using hv
      rw [List.filter_cons_of_neg (by simp [hv'])] at h
      by_cases hp : partialB search v = true
      · cases ex with
        | true =>
          obtain ⟨c, hc⟩ := ih true cnt res r h
          exact ⟨c, by simp [findLoop, hv', hp, hc]⟩
        | false =>
          obtain ⟨c, hc⟩ := ih false (cnt + 1) v r h
          exact ⟨c, by simp [findLoop, hv', hp, hc]⟩
      · obtain ⟨c, hc⟩ := ih ex cnt res r h
        exact ⟨c, by simp [findLoop, hv', hp, hc]⟩

/-- Claim C1: whenever at least one catalog entry matches the search string
exactly (by Name or by ID), `FindDiskImage` returns the last exact match in
catalog-scan order, however many other entries match partially. -/
theorem findDiskImage_lastExactMatch (l : List DiskImage) (search : String) (r : DiskImage)
    (h : (l.filter (exactB search)).getLast? = some r) :
    findDiskImage l search = Except.ok r := by
  obtain ⟨c, hc⟩ := findLoop_exact search l false 0 zeroDiskImage r h
  simp [findDiskImage, hc]

/-- Witness for C1: a catalog whose entries `ubuntu-hirsute`, `ubuntu-focal`
and `by-id` all partially match, with two exact matches (the name
`ubuntu-focal` and then the ID `ubuntu-focal`); the last exact match wins. -/
theorem findDiskImage_lastExactMatch_witness :
    findDiskImage
      [mkImg "i1" "ubuntu-hirsute" "v21.04", mkImg "i2" "ubuntu-focal" "v20.04",
        mkImg "ubuntu-focal" "by-id" "v1.0.0"]
      "ubuntu-focal" = Except.ok (mkImg "ubuntu-focal" "by-id" "v1.0.0") :=
  findDiskImage_lastExactMatch _ "ubuntu-focal" _ (by decide)

/-- When no entry of the scanned list is an exact match, the loop keeps the
flag down, counts every partial match, and holds the last partial match (or
the starting value when there is none) as result. -/
lemma findLoop_noExact (search : String) :
    ∀ (l : List DiskImage) (cnt : Nat) (res : DiskImage),
      (∀ x ∈ l, exactB search x = false) →
      findLoop search l false cnt res =
        (false, cnt + (l.filter (partialB search)).length,
          ((l.filter (partialB search)).getLast?).getD res) := by
  intro l
  induction l with
  | nil => intro cnt res _; simp [findLoop]
  | cons v t ih =>
    intro cnt res h
    have hv : exactB search v = false := h v (by simp)
    have ht : ∀ x ∈ t, exactB search x = false := fun x hx => h x (by simp [hx])
    by_cases hp : partialB search v = true
    · rw [List.filter_cons_of_pos hp]
      have hrec : findLoop search (v :: t) false cnt res = findLoop search t false (cnt + 1) v := by
        simp [findLoop, hv, hp]
      rw [hrec, ih (cnt + 1) v ht]
      cases htf : t.filter (partialB search) with
      | nil => simp
      | cons w ws =>
        simp only [List.getLast?_cons_cons, Prod.mk.injEq, true_and]
        constructor
        · simp; omega
        · rw [List.getLast?_eq_getLast_of_ne_nil (l := w :: ws) (by simp)]
          simp
    · have hp' : partialB search v = false := by simpa using hp
      rw [List.filter_cons_of_neg (by simp [hp'])]
      simp [findLoop, hv, hp', ih cnt res ht]

/-- Claim C3: with no exact match in the catalog, more than one partial
match yields the multiple-matches error carrying the search term, and no
match at all yields the zero-matches error carrying the search term; in
both cases no disk image is returned. -/
theorem findDiskImage_noExact_errorTaxonomy (l : List DiskImage) (search : String)
    (hex : ∀ x ∈ l, exactB search x = false) :
    (1 < (l.filter (partialB search)).length →
        findDiskImage l search = Except.error (FindError.multipleMatches
          ("unable to find " ++ search ++ " because there were multiple matches")))
    ∧ ((l.filter (partialB search)).length = 0 →
        findDiskImage l search = Except.error (FindError.zeroMatches
          ("unable to find " ++ search ++ ", zero matches"))) := by
  have hloop := findLoop_noExact search l 0 zeroDiskImage hex
  constructor
  · intro hgt
    simp [findDiskImage, hloop]
    rw [if_neg (by omega), if_pos (by omega)]
  · intro hz
    simp [findDiskImage, hloop, hz]

/-- Witness for C3: the catalog `debian-10`, `debian-11`, `alpine` has no
exact match for `debian` and two partial matches, so resolution fails with
the multiple-matches error; the same catalog has no match at all for
`freebsd`, so that resolution fails with the zero-matches error. -/
theorem findDiskImage_noExact_errorTaxonomy_witness :
    findDiskImage [mkImg "i1" "debian-10" "v10", mkImg "i2" "debian-11" "v11",
        mkImg "i3" "alpine" "v3"] "debian" =
      Except.error (FindError.multipleMatches
        "unable to find debian because there were multiple matches")
    ∧ findDiskImage [mkImg "i1" "debian-10" "v10", mkImg "i2" "debian-11" "v11",
        mkImg "i3" "alpine" "v3"] "freebsd" =
      Except.error (FindError.zeroMatches "unable to find freebsd, zero matches") :=
  ⟨(findDiskImage_noExact_errorTaxonomy _ "debian" (by decide)).1 (by decide),
    (findDiskImage_noExact_errorTaxonomy _ "freebsd" (by decide)).2 (by decide)⟩

/-- Claim C5: with no exact match and exactly one partial match in the
catalog, `FindDiskImage` returns that single partial match. -/
theorem findDiskImage_uniquePartial (l : List DiskImage) (search : String) (e : DiskImage)
    (hex : ∀ x ∈ l, exactB search x = false)
    (hp : l.filter (partialB search) = [e]) :
    findDiskImage l search = Except.ok e := by
  have hloop := findLoop_noExact search l 0 zeroDiskImage hex
  rw [hp] at hloop
  simp at hloop
  simp [findDiskImage, hloop]

/-- Witness for C5: a catalog in which exactly one entry contains the
substring `alpine`; resolution returns it. -/
theorem findDiskImage_uniquePartial_witness :
    findDiskImage [mkImg "i1" "debian-10" "v10", mkImg "i2" "alpine-3.14" "v3"] "alpine" =
      Except.ok (mkImg "i2" "alpine-3.14" "v3") :=
  findDiskImage_uniquePartial _ "alpine" _ (by decide) (by decide)

/-- Claim C9: on a catalog of at least two entries, each with non-empty
Name and ID, the empty search string matches every entry partially and none
exactly, so resolution fails with the multiple-matches error. -/
theorem findDiskImage_emptySearch_multipleMatches (l : List DiskImage)
    (hlen : 2 ≤ l.length)
    (hne : ∀ x ∈ l, x.Name ≠ "" ∧ x.ID ≠ "") :
    findDiskImage l "" =
      Except.error (FindError.multipleMatches
        "unable to find  because there were multiple matches") := by
  have hex : ∀ x ∈ l, exactB "" x = false := by
    intro x hx
    have := hne x hx
    simp [exactB, this.1, this.2]
  have hall : l.filter (partialB "") = l := by
    refine List.filter_eq_self.mpr ?_
    intro x _
    simp [partialB, goContains_empty]
  have hloop := findLoop_noExact "" l 0 zeroDiskImage hex
  rw [hall] at hloop
  simp [findDiskImage, hloop]
  rw [if_neg (by omega), if_pos (by omega)]

/-- Witness for C9: two entries with non-empty names and IDs; the empty
search term is ambiguous. -/
theorem findDiskImage_emptySearch_multipleMatches_witness :
    findDiskImage [mkImg "i1" "debian-10" "v10", mkImg "i2" "alpine-3.14" "v3"] "" =
      Except.error (FindError.multipleMatches
        "unable to find  because there were multiple matches") :=
  findDiskImage_emptySearch_multipleMatches _ (by decide) (by decide)

/-- Claim C6: `GetDiskImageByName` returns the first entry of the catalog
whose Name equals the given name exactly, and fails with the generic
`diskimage not found` error when no entry has that exact Name. -/
theorem getDiskImageByName_firstExact (l : List DiskImage) (name : String) :
    getDiskImageByName l name =
      match l.find? (fun d => d.Name == name) with
      | some e => Except.ok e
      | none => Except.error "diskimage not found" := by
  induction l with
  | nil => rfl
  | cons d t ih =>
    by_cases h : (d.Name == name) = true
    · simp [getDiskImageByName, h, List.find?_cons_of_pos]
    · have h' : (d.Name == name) = false := by simpa using h
      simp [getDiskImageByName, h', List.find?_cons_of_neg, ih]

/-- Folding the append-if-kept loop of `ListDiskImages` is filtering. -/
lemma foldl_append_filter (p : DiskImage → Bool) :
    ∀ (l acc : List DiskImage),
      l.foldl (fun filtered d => if p d then filtered ++ [d] else filtered) acc =
        acc ++ l.filter p := by
  intro l
  induction l with
  | nil => intro acc; simp
  | cons d t ih =>
    intro acc
    by_cases h : p d = true
    · simp [List.filter_cons, h, ih]
    · have h' : p d = false := by simpa using h
      simp [List.filter_cons, h', ih]

/-- Claim C2: whatever the `includeCustom` flag, `ListDiskImages` keeps, in
order, exactly the decoded entries whose Name contains neither `k3s` nor
`talos`; no returned entry's Name contains either substring. -/
theorem listDiskImages_excludesOrchestration (flag : Bool) (resp : JValue)
    (ds : List DiskImage) (hdec : decodeDiskImageList resp = some ds) :
    listDiskImages flag resp =
      some (ds.filter (fun d => !(goContains d.Name "k3s") && !(goContains d.Name "talos")))
    ∧ ∀ l, listDiskImages flag resp = some l →
        ∀ e ∈ l, goContains e.Name "k3s" = false ∧ goContains e.Name "talos" = false := by
  have heq : listDiskImages flag resp =
      some (ds.filter (fun d => !(goContains d.Name "k3s") && !(goContains d.Name "talos"))) := by
    unfold listDiskImages
    simp only [hdec]
    rw [foldl_append_filter
      (fun d => !(goContains d.Name "k3s") && !(goContains d.Name "talos")) ds []]
    rfl
  refine ⟨heq, ?_⟩
  intro l hl e he
  rw [heq] at hl
  cases hl
  have := (List.mem_filter.mp he).2
  constructor
  · by_contra hc
    simp at hc
    simp [hc] at this
  · by_contra hc
    simp at hc
    simp [hc] at this

/-- Witness for C2: a response with a `k3s-v1.2` image and an
`ubuntu-20.04` image; only the latter survives the filter. -/
theorem listDiskImages_excludesOrchestration_witness :
    listDiskImages false
        (JValue.arr [JValue.obj [("name", JValue.str "k3s-v1.2")],
          JValue.obj [("name", JValue.str "ubuntu-20.04")]]) =
      some [mkImg "" "ubuntu-20.04" ""] :=
  (listDiskImages_excludesOrchestration false
    (JValue.arr [JValue.obj [("name", JValue.str "k3s-v1.2")],
      JValue.obj [("name", JValue.str "ubuntu-20.04")]])
    [mkImg "" "k3s-v1.2" "", mkImg "" "ubuntu-20.04" ""] rfl).1.trans (by decide)

/-- Counterexample to claim C8 as stated: decoding the empty JSON object
succeeds and produces a `DiskImage` whose ID and Name are both empty, so a
successful decode does not guarantee non-empty ID and Name. -/
theorem decodeDiskImage_emptyObject_counterexample :
    (getDiskImage (JValue.obj []) = some zeroDiskImage
      ∧ zeroDiskImage.ID = "" ∧ zeroDiskImage.Name = "")
    ∧ listDiskImages false (JValue.arr [JValue.obj []]) = some [zeroDiskImage] :=
  ⟨⟨rfl, rfl, rfl⟩, rfl⟩

/-- Claim C8 as amended: a successfully decoded `DiskImage` takes its ID
and Name verbatim from the payload's `id` and `name` string fields, so they
are non-empty exactly when the payload supplies non-empty values; the
decoder itself enforces no non-emptiness. -/
theorem decodeDiskImage_idName_verbatim (fs : List (String × JValue)) (idv namev : String)
    (d : DiskImage)
    (hid : jLookup fs "id" = some (JValue.str idv))
    (hname : jLookup fs "name" = some (JValue.str namev))
    (hdec : getDiskImage (JValue.obj fs) = some d) :
    d.ID = idv ∧ d.Name = namev := by
  simp only [getDiskImage, decodeDiskImage] at hdec
  by_cases hall : (fs.all fun kv => fieldTypeOk kv.1 kv.2) = true
  · rw [if_pos hall] at hdec
    have hd := Option.some.inj hdec
    subst hd
    have hID : strD fs "id" = idv := by simp [strD, hid]
    have hName : strD fs "name" = namev := by simp [strD, hname]
    exact ⟨hID, hName⟩
  · rw [if_neg hall] at hdec
    exact absurd hdec (by simp)

/-- Witness for the amended C8: a payload carrying non-empty `id` and
`name` decodes to an image with those exact (non-empty) values. -/
theorem decodeDiskImage_idName_verbatim_witness :
    (mkImg "img-1" "ubuntu" "").ID = "img-1" ∧ (mkImg "img-1" "ubuntu" "").Name = "ubuntu" :=
  decodeDiskImage_idName_verbatim
    [("id", JValue.str "img-1"), ("name", JValue.str "ubuntu")]
    "img-1" "ubuntu" (mkImg "img-1" "ubuntu" "") rfl rfl rfl

/-- A comparison result is negative exactly when the first key is
strictly smaller. -/
lemma semverCompare_lt_iff {v w : String} :
    semverCompare v w < 0 ↔ semKey v < semKey w := by
  unfold semverCompare
  split_ifs with h1 h2
  · simpa using h1
  · constructor
    · intro h; norm_num at h
    · intro h; exact absurd h h1
  · constructor
    · intro h; norm_num at h
    · intro h; exact absurd h h1

/-- A comparison result is non-positive exactly when the first key is not
larger. -/
lemma semverCompare_le_iff {v w : String} :
    semverCompare v w ≤ 0 ↔ semKey v ≤ semKey w := by
  unfold semverCompare
  split_ifs with h1 h2
  · constructor
    · intro _; exact le_of_lt h1
    · intro _; norm_num
  · constructor
    · intro h; norm_num at h
    · intro h; exact absurd h2 (not_lt_of_le h)
  · constructor
    · intro _; exact le_of_not_lt h2
    · intro _; norm_num

/-- Two invalid version strings compare equal (Go `semver.Compare` treats
every invalid version alike). -/
lemma semverCompare_invalid {v w : String}
    (hv : parseV v = none) (hw : parseV w = none) : semverCompare v w = 0 := by
  unfold semverCompare semKey
  rw [hv, hw]
  simp

/-- A catalog without any entry matching `name` leaves the candidate of the
`GetMostRecentDistro` loop empty. -/
lemma foldl_grd_none (name : String) :
    ∀ (l : List DiskImage), (∀ x ∈ l, goContains x.Name name = false) →
      l.foldl (grdStep name) none = none := by
  intro l
  induction l with
  | nil => intro _; rfl
  | cons d t ih =>
    intro h
    have hd : goContains d.Name name = false := h d (by simp)
    have hstep : grdStep name none d = none := by simp [grdStep, hd]
    rw [List.foldl_cons, hstep]
    exact ih fun x hx => h x (by simp [hx])

/-- Claim C7: when no catalog entry's Name contains the search term,
`GetMostRecentDistro` fails with the not-found error naming the term. -/
theorem getMostRecentDistro_notFound (l : List DiskImage) (name : String)
    (h : ∀ x ∈ l, goContains x.Name name = false) :
    getMostRecentDistro l name = Except.error (name ++ " image not found") := by
  simp [getMostRecentDistro, foldl_grd_none name l h]

/-- Witness for C7: no entry of the catalog contains `nonexistent`. -/
theorem getMostRecentDistro_notFound_witness :
    getMostRecentDistro [mkImg "i1" "debian-10" "v10", mkImg "i2" "alpine-3.14" "v3"]
        "nonexistent" = Except.error "nonexistent image not found" :=
  getMostRecentDistro_notFound _ "nonexistent" (by decide)

/-- When the current candidate's version is invalid and every further
matching entry's version is invalid too, every comparison returns zero and
the candidate never changes. -/
lemma foldl_grd_stay (name : String) (b : DiskImage) (hb : parseV b.Version = none) :
    ∀ (t : List DiskImage),
      (∀ x ∈ t, goContains x.Name name = true → parseV x.Version = none) →
      t.foldl (grdStep name) (some b) = some b := by
  intro t
  induction t with
  | nil => intro _; rfl
  | cons d r ih =>
    intro h
    by_cases hd : goContains d.Name name = true
    · have hdv : parseV d.Version = none := h d (by simp) hd
      have hcmp : semverCompare b.Version d.Version = 0 := semverCompare_invalid hb hdv
      have hstep : grdStep name (some b) d = some b := by
        simp [grdStep, hd, hcmp]
      rw [List.foldl_cons, hstep]
      exact ih fun x hx hm => h x (by simp [hx]) hm
    · have hd' : goContains d.Name name = false := by simpa using hd
      have hstep : grdStep name (some b) d = some b := by simp [grdStep, hd']
      rw [List.foldl_cons, hstep]
      exact ih fun x hx hm => h x (by simp [hx]) hm

/-- With only invalid versions among the matching entries, the loop keeps
the first matching entry. -/
lemma foldl_grd_invalid_first (name : String) :
    ∀ (l : List DiskImage) (e : DiskImage),
      l.find? (fun x => goContains x.Name name) = some e →
      (∀ x ∈ l, goContains x.Name name = true → parseV x.Version = none) →
      l.foldl (grdStep name) none = some e := by
  intro l
  induction l with
  | nil => intro e he _; simp at he
  | cons d t ih =>
    intro e he h
    by_cases hd : goContains d.Name name = true
    · rw [List.find?_cons_of_pos (p := fun x => goContains x.Name name) t hd] at he
      have hde : d = e := Option.some.inj he
      have hdv : parseV d.Version = none := h d (by simp) hd
      have hstep : grdStep name none d = some d := by simp [grdStep, hd]
      rw [List.foldl_cons, hstep,
        foldl_grd_stay name d hdv t (fun x hx => h x (by simp [hx])), hde]
    · have hd' : goContains d.Name name = false := by simpa using hd
      rw [List.find?_cons_of_neg (p := fun x => goContains x.Name name) t (by simp [hd'])] at he
      have hstep : grdStep name none d = none := by simp [grdStep, hd']
      rw [List.foldl_cons, hstep]
      exact ih e he fun x hx hm => h x (by simp [hx]) hm

/-- Claim C10: when the catalog has a matching entry and every matching
entry's version string is invalid for the semver library (for example,
lacks the leading `v`), all comparisons between matching entries yield
equality and `GetMostRecentDistro` returns the first matching entry in
catalog order. -/
theorem getMostRecentDistro_invalidVersions_first (l : List DiskImage) (name : String)
    (e : DiskImage)
    (hfind : l.find? (fun x => goContains x.Name name) = some e)
    (hinv : ∀ x ∈ l, goContains x.Name name = true → parseV x.Version = none) :
    (∀ x ∈ l, ∀ y ∈ l, goContains x.Name name = true → goContains y.Name name = true →
        semverCompare x.Version y.Version = 0)
    ∧ getMostRecentDistro l name = Except.ok e := by
  refine ⟨fun x hx y hy hmx hmy => semverCompare_invalid (hinv x hx hmx) (hinv y hy hmy), ?_⟩
  simp [getMostRecentDistro, foldl_grd_invalid_first name l e hfind hinv]

/-- Witness for C10: both `debian` images carry versions without the
leading `v`, so the first one is returned. -/
theorem getMostRecentDistro_invalidVersions_first_witness :
    getMostRecentDistro [mkImg "i1" "debian-10" "10.0.0", mkImg "i2" "debian-11" "11.0.0"]
        "debian" = Except.ok (mkImg "i1" "debian-10" "10.0.0") :=
  (getMostRecentDistro_invalidVersions_first
    [mkImg "i1" "debian-10" "10.0.0", mkImg "i2" "debian-11" "11.0.0"] "debian"
    (mkImg "i1" "debian-10" "10.0.0") (by decide) (by decide)).2

/-- Invariant of the scan of `GetMostRecentDistro` once a candidate `b`
exists: the loop ends in a matching entry `e` of `b :: rest` that every
earlier matching entry is strictly below and every later matching entry is
at or below — the first occurrence of the running maximum. -/
lemma foldl_grd_some (name : String) :
    ∀ (rest : List DiskImage) (b : DiskImage),
      goContains b.Name name = true →
      ∃ e r₁ r₂, rest.foldl (grdStep name) (some b) = some e
        ∧ goContains e.Name name = true
        ∧ b :: rest = r₁ ++ e :: r₂
        ∧ (∀ x ∈ r₁, goContains x.Name name = true → semKey x.Version < semKey e.Version)
        ∧ (∀ x ∈ r₂, goContains x.Name name = true → semKey x.Version ≤ semKey e.Version) := by
  intro rest
  induction rest with
  | nil =>
    intro b hb
    exact ⟨b, [], [], rfl, hb, rfl, by simp, by simp⟩
  | cons d t ih =>
    intro b hb
    by_cases hd : goContains d.Name name = true
    · by_cases hlt : semverCompare b.Version d.Version < 0
      · have hbd : semKey b.Version < semKey d.Version := semverCompare_lt_iff.mp hlt
        have hstep : grdStep name (some b) d = some d := by simp [grdStep, hd, hlt]
        obtain ⟨e, r₁, r₂, hfold, he, hsplit, hbefore, hafter⟩ := ih d hd
        have hfold' : (d :: t).foldl (grdStep name) (some b) = some e := by
          rw [List.foldl_cons, hstep]; exact hfold
        have hbe : semKey b.Version < semKey e.Version := by
          cases r₁ with
          | nil =>
            rw [List.nil_append] at hsplit
            injection hsplit with h1 h2
            rw [← h1]
            exact hbd
          | cons a r₁' =>
            rw [List.cons_append] at hsplit
            injection hsplit with h1 h2
            have hde : semKey d.Version < semKey e.Version := by
              refine hbefore d ?_ hd
              rw [h1]
              exact List.mem_cons_self a r₁'
            exact lt_trans hbd hde
        refine ⟨e, b :: r₁, r₂, hfold', he, ?_, ?_, hafter⟩
        · rw [List.cons_append, ← hsplit]
        · intro x hx hmx
          rcases List.mem_cons.mp hx with rfl | hx'
          · exact hbe
          · exact hbefore x hx' hmx
      · have hdb : semKey d.Version ≤ semKey b.Version :=
          le_of_not_lt fun hc => hlt (semverCompare_lt_iff.mpr hc)
        have hstep : grdStep name (some b) d = some b := by simp [grdStep, hd, hlt]
        obtain ⟨e, r₁, r₂, hfold, he, hsplit, hbefore, hafter⟩ := ih b hb
        cases r₁ with
        | nil =>
          rw [List.nil_append] at hsplit
          injection hsplit with h1 h2
          refine ⟨e, [], d :: r₂, ?_, he, ?_, by simp, ?_⟩
          · rw [List.foldl_cons, hstep]; exact hfold
          · rw [List.nil_append, ← h1, ← h2]
          · intro x hx hmx
            rcases List.mem_cons.mp hx with rfl | hx'
            · rw [← h1]; exact hdb
            · exact hafter x hx' hmx
        | cons a r₁' =>
          rw [List.cons_append] at hsplit
          injection hsplit with h1 h2
          have hbe : semKey b.Version < semKey e.Version := by
            refine hbefore b ?_ hb
            rw [h1]
            exact List.mem_cons_self a r₁'
          refine ⟨e, b :: d :: r₁', r₂, ?_, he, ?_, ?_, hafter⟩
          · rw [List.foldl_cons, hstep]; exact hfold
          · rw [List.cons_append, List.cons_append, ← h2]
          · intro x hx hmx
            rcases List.mem_cons.mp hx with rfl | hx'
            · exact hbe
            · rcases List.mem_cons.mp hx' with rfl | hx''
              · exact lt_of_le_of_lt hdb hbe
              · exact hbefore x (List.mem_cons_of_mem a hx'') hmx
    · have hd' : goContains d.Name name = false := by simpa using hd
      have hstep : grdStep name (some b) d = some b := by simp [grdStep, hd']
      obtain ⟨e, r₁, r₂, hfold, he, hsplit, hbefore, hafter⟩ := ih b hb
      cases r₁ with
      | nil =>
        rw [List.nil_append] at hsplit
        injection hsplit with h1 h2
        refine ⟨e, [], d :: r₂, ?_, he, ?_, by simp, ?_⟩
        · rw [List.foldl_cons, hstep]; exact hfold
        · rw [List.nil_append, ← h1, ← h2]
        · intro x hx hmx
          rcases List.mem_cons.mp hx with rfl | hx'
          · exact absurd hmx (by simp [hd'])
          · exact hafter x hx' hmx
      | cons a r₁' =>
        rw [List.cons_append] at hsplit
        injection hsplit with h1 h2
        refine ⟨e, b :: d :: r₁', r₂, ?_, he, ?_, ?_, hafter⟩
        · rw [List.foldl_cons, hstep]; exact hfold
        · rw [List.cons_append, List.cons_append, ← h2]
        · intro x hx hmx
          rcases List.mem_cons.mp hx with rfl | hx'
          · refine hbefore x ?_ hmx
            rw [h1]
            exact List.mem_cons_self a r₁'
          · rcases List.mem_cons.mp hx' with rfl | hx''
            · exact absurd hmx (by simp [hd'])
            · refine hbefore x ?_ hmx
              exact List.mem_cons_of_mem a hx''

/-- The scan of `GetMostRecentDistro` from the empty candidate on a list
with at least one matching entry ends in the first occurrence of the
maximum-version matching entry. -/
lemma foldl_grd_main (name : String) :
    ∀ (l : List DiskImage), (∃ x ∈ l, goContains x.Name name = true) →
      ∃ e r₁ r₂, l.foldl (grdStep name) none = some e
        ∧ goContains e.Name name = true
        ∧ l = r₁ ++ e :: r₂
        ∧ (∀ x ∈ r₁, goContains x.Name name = true → semKey x.Version < semKey e.Version)
        ∧ (∀ x ∈ r₂, goContains x.Name name = true → semKey x.Version ≤ semKey e.Version) := by
  intro l
  induction l with
  | nil =>
    rintro ⟨x, hx, _⟩
    simp at hx
  | cons d t ih =>
    intro hex
    by_cases hd : goContains d.Name name = true
    · have hstep : grdStep name none d = some d := by simp [grdStep, hd]
      obtain ⟨e, r₁, r₂, hfold, he, hsplit, hbefore, hafter⟩ := foldl_grd_some name t d hd
      refine ⟨e, r₁, r₂, ?_, he, hsplit, hbefore, hafter⟩
      rw [List.foldl_cons, hstep]
      exact hfold
    · have hd' : goContains d.Name name = false := by simpa using hd
      have hstep : grdStep name none d = none := by simp [grdStep, hd']
      have hex' : ∃ x ∈ t, goContains x.Name name = true := by
        rcases hex with ⟨x, hx, hmx⟩
        rcases List.mem_cons.mp hx with rfl | hx'
        · exact absurd hmx (by simp [hd'])
        · exact ⟨x, hx', hmx⟩
      obtain ⟨e, r₁, r₂, hfold, he, hsplit, hbefore, hafter⟩ := ih hex'
      refine ⟨e, d :: r₁, r₂, ?_, he, ?_, ?_, hafter⟩
      · rw [List.foldl_cons, hstep]; exact hfold
      · rw [List.cons_append, ← hsplit]
      · intro x hx hmx
        rcases List.mem_cons.mp hx with rfl | hx'
        · exact absurd hmx (by simp [hd'])
        · exact hbefore x hx' hmx

/-- Claim C4: when at least one catalog entry's Name contains the search
term, `GetMostRecentDistro` returns a matching entry whose Version every
other matching entry's Version compares at or below under semantic-version
precedence, and every matching entry seen earlier in catalog order
compares strictly below — so of several equal maxima the earliest-seen one
is returned. -/
theorem getMostRecentDistro_returnsMax (l : List DiskImage) (name : String)
    (hex : ∃ x ∈ l, goContains x.Name name = true) :
    ∃ e r₁ r₂, getMostRecentDistro l name = Except.ok e
      ∧ goContains e.Name name = true
      ∧ l = r₁ ++ e :: r₂
      ∧ (∀ x ∈ r₁, goContains x.Name name = true → semverCompare x.Version e.Version < 0)
      ∧ (∀ x ∈ r₂, goContains x.Name name = true → semverCompare x.Version e.Version ≤ 0) := by
  obtain ⟨e, r₁, r₂, hfold, he, hsplit, hbefore, hafter⟩ := foldl_grd_main name l hex
  refine ⟨e, r₁, r₂, ?_, he, hsplit, ?_, ?_⟩
  · simp [getMostRecentDistro, hfold]
  · intro x hx hmx
    exact semverCompare_lt_iff.mpr (hbefore x hx hmx)
  · intro x hx hmx
    exact semverCompare_le_iff.mpr (hafter x hx hmx)

/-- Witness for C4: two `debian` images with versions `v1.2.0` and
`v1.10.0`; the hypothesis holds, so the scan returns the semantic-version
maximum (`v1.10.0`, not the lexically larger `v1.2.0`). -/
theorem getMostRecentDistro_returnsMax_witness :
    ∃ e r₁ r₂,
      getMostRecentDistro [mkImg "i1" "debian" "v1.2.0", mkImg "i2" "debian" "v1.10.0"]
          "debian" = Except.ok e
        ∧ goContains e.Name "debian" = true
        ∧ [mkImg "i1" "debian" "v1.2.0", mkImg "i2" "debian" "v1.10.0"] = r₁ ++ e :: r₂
        ∧ (∀ x ∈ r₁, goContains x.Name "debian" = true →
            semverCompare x.Version e.Version < 0)
        ∧ (∀ x ∈ r₂, goContains x.Name "debian" = true →
            semverCompare x.Version e.Version ≤ 0) :=
  getMostRecentDistro_returnsMax
    [mkImg "i1" "debian" "v1.2.0", mkImg "i2" "debian" "v1.10.0"] "debian"
    ⟨mkImg "i1" "debian" "v1.2.0", by decide, by decide⟩

end Civogo
